import Mathlib

/-!
Verification of the `interp-training` repository.

The repository has two source files:

* `src/trainer.py` — a crosscoder training loop (`Trainer`) with a
  learning-rate decay schedule (`lr_lambda`), an L1-coefficient warmup
  (`get_l1_coeff`), periodic checkpointing and a JSON-serialized
  configuration (`TrainerConfig`);
* `src/cache_acts.py` — a multiprocessing orchestrator that extracts
  activations for a fixed list of model checkpoints and merges the
  per-checkpoint outputs into one wide table.

Python numeric code is embedded over `ℚ` (float literals such as `0.8`
are read as the rationals they denote), Python ints over `ℕ`/`ℤ`, and
Python code that can raise is embedded with `Except` results
(`ZeroDivisionError` becomes an explicit error value). Side-effecting
control flow (the training loop, the orchestrator) is embedded as pure
functions producing explicit event traces.
-/

namespace InterpTraining

/-! ## `Trainer.lr_lambda` (src/trainer.py, lines 35-39)

```python
def lr_lambda(self, step):
    if step < 0.8 * self.total_steps:
        return 1.0
    else:
        return 1.0 - (step - 0.8 * self.total_steps) / (0.2 * self.total_steps)
```
-/

/-- `Trainer.lr_lambda`: the learning-rate multiplier as a function of the
current `step` and `self.total_steps`, with the float literals `0.8` and
`0.2` read as `8/10` and `2/10` in `ℚ`. -/
def lr_lambda (total_steps step : ℕ) : ℚ :=
  if (step : ℚ) < 8/10 * total_steps then 1
  else 1 - ((step : ℚ) - 8/10 * total_steps) / (2/10 * total_steps)

/-- `Trainer.get_l1_coeff` (src/trainer.py, lines 41-46): the
sparsity-penalty coefficient as a function of `self.cfg.l1_coeff`,
`self.total_steps` and `self.step_counter`, with the float literal `0.05`
read as `5/100` in `ℚ`. -/
def get_l1_coeff (l1_coeff : ℚ) (total_steps step_counter : ℕ) : ℚ :=
  if (step_counter : ℚ) < 5/100 * total_steps then
    l1_coeff * step_counter / (5/100 * total_steps)
  else l1_coeff

/-! ## `Trainer.step` / `Trainer.train` (src/trainer.py, lines 48-73 and 85-103)

The loop's side effects are embedded as an explicit event trace; numeric
tensor values are irrelevant to the claims about the loop and are not
modelled, only which framework operations run and in what order.
-/

/-- One observable operation of the training loop. `clipGradNorm` records
the `max_norm` argument passed to `t.nn.utils.clip_grad_norm_`; `save`
is a call to `Trainer.save`; `raiseExc i` marks an exception escaping
while batch `i` is being processed. -/
inductive TrainEvent where
  | getLosses (i : ℕ)
  | computeLoss (i : ℕ)
  | backward (i : ℕ)
  | clipGradNorm (i : ℕ) (maxNorm : ℚ)
  | optimizerStep (i : ℕ)
  | schedulerStep (i : ℕ)
  | zeroGrad (i : ℕ)
  | save
  | raiseExc (i : ℕ)
deriving DecidableEq, Repr

/-- The operations of `Trainer.step` on batch `i`, in source order
(lines 49-55): `get_losses`; the weighted-loss expression; `loss.backward()`;
`clip_grad_norm_(..., max_norm=1.0)`; `optimizer.step()`;
`scheduler.step()`; `optimizer.zero_grad()`. -/
def stepEvents (i : ℕ) : List TrainEvent :=
  [.getLosses i, .computeLoss i, .backward i, .clipGradNorm i 1,
   .optimizerStep i, .schedulerStep i, .zeroGrad i]

/-- The weighted loss of `Trainer.step` (line 50):
`loss = losses.l2_loss + self.get_l1_coeff() * losses.l1_loss`. -/
def stepLoss (l1_coeff : ℚ) (total_steps step_counter : ℕ) (l2_loss l1_loss : ℚ) : ℚ :=
  l2_loss + get_l1_coeff l1_coeff total_steps step_counter * l1_loss

/-- The `for i, batch in enumerate(tqdm(self.dl))` body of `Trainer.train`
(lines 97-101) over the remaining batch indices, threading
`self.step_counter` (incremented at the end of each completed
`Trainer.step`, line 72). After each completed batch `i`, `self.save()`
runs when `(i + 1) % save_every == 0` (line 100). `failAt = some k` models
an exception raised while batch `k` is processed: the loop stops there
without completing that step or its conditional save. Returns the emitted
events and the final step counter. -/
def loopRun (save_every : ℕ) (failAt : Option ℕ) : List ℕ → ℕ → List TrainEvent × ℕ
  | [], c => ([], c)
  | i :: rest, c =>
    if failAt = some i then ([.raiseExc i], c)
    else
      (stepEvents i ++ (if (i + 1) % save_every = 0 then [.save] else [])
         ++ (loopRun save_every failAt rest (c + 1)).1,
       (loopRun save_every failAt rest (c + 1)).2)

/-- `Trainer.train` (lines 85-103): iterate the data loader once — batch
indices `0, …, n-1` with `n = len(dl) = total_steps` — inside `try:`; the
`finally:` block invokes `self.save()` unconditionally, whether the loop
completed normally or an exception escaped it. -/
def trainRun (save_every n : ℕ) (failAt : Option ℕ) : List TrainEvent × ℕ :=
  ((loopRun save_every failAt (List.range n) 0).1 ++ [.save],
   (loopRun save_every failAt (List.range n) 0).2)

/-- The event trace of a `Trainer.train` run. -/
def trainEvents (save_every n : ℕ) (failAt : Option ℕ) : List TrainEvent :=
  (trainRun save_every n failAt).1

/-- The value of `self.step_counter` when `Trainer.train` terminates. -/
def finalStepCounter (save_every n : ℕ) (failAt : Option ℕ) : ℕ :=
  (trainRun save_every n failAt).2

/-! ## `TrainerConfig` and `Trainer.save` (src/trainer.py, lines 10-26 and 80-83)

`Trainer.save` writes `json.dump(asdict(self.cfg), f)`. JSON is modelled
at the value level: an object is a list of key/value pairs in insertion
order (`asdict` preserves the dataclass field order), a Python int
serializes as a JSON integer, a float as a JSON number, a str as a JSON
string. Reloading is the corresponding typed lookup of every field.
-/

/-- A JSON scalar as written by `json.dump` for the fields of
`TrainerConfig`. -/
inductive JValue where
  | jint (z : ℤ)
  | jnum (q : ℚ)
  | jstr (s : String)
deriving DecidableEq, Repr

/-- The `TrainerConfig` dataclass (lines 10-26). -/
structure TrainerConfig where
  batch_size : ℤ
  lr : ℚ
  beta1 : ℚ
  beta2 : ℚ
  l1_coeff : ℚ
  dataset_repo_id : String
  wandb_project : String
  wandb_entity : String
  log_every : ℤ
  save_every : ℤ
  dump_dir : String
deriving DecidableEq, Repr

/-- `asdict(self.cfg)` as serialized by `json.dump` (line 83): the fields
in dataclass declaration order. -/
def TrainerConfig.asdict (c : TrainerConfig) : List (String × JValue) :=
  [("batch_size", .jint c.batch_size),
   ("lr", .jnum c.lr),
   ("beta1", .jnum c.beta1),
   ("beta2", .jnum c.beta2),
   ("l1_coeff", .jnum c.l1_coeff),
   ("dataset_repo_id", .jstr c.dataset_repo_id),
   ("wandb_project", .jstr c.wandb_project),
   ("wandb_entity", .jstr c.wandb_entity),
   ("log_every", .jint c.log_every),
   ("save_every", .jint c.save_every),
   ("dump_dir", .jstr c.dump_dir)]

/-- Read a JSON value back as a Python int. -/
def JValue.asInt : JValue → Option ℤ
  | .jint z => some z
  | _ => none

/-- Read a JSON value back as a Python float. -/
def JValue.asNum : JValue → Option ℚ
  | .jnum q => some q
  | _ => none

/-- Read a JSON value back as a Python str. -/
def JValue.asStr : JValue → Option String
  | .jstr s => some s
  | _ => none

/-- Reload a dumped `trainer_cfg.json` object into a `TrainerConfig`:
look up every hyperparameter field by name with its expected type. -/
def TrainerConfig.fromJson (j : List (String × JValue)) : Option TrainerConfig := do
  let batch_size ← (j.lookup "batch_size").bind JValue.asInt
  let lr ← (j.lookup "lr").bind JValue.asNum
  let beta1 ← (j.lookup "beta1").bind JValue.asNum
  let beta2 ← (j.lookup "beta2").bind JValue.asNum
  let l1_coeff ← (j.lookup "l1_coeff").bind JValue.asNum
  let dataset_repo_id ← (j.lookup "dataset_repo_id").bind JValue.asStr
  let wandb_project ← (j.lookup "wandb_project").bind JValue.asStr
  let wandb_entity ← (j.lookup "wandb_entity").bind JValue.asStr
  let log_every ← (j.lookup "log_every").bind JValue.asInt
  let save_every ← (j.lookup "save_every").bind JValue.asInt
  let dump_dir ← (j.lookup "dump_dir").bind JValue.asStr
  some ⟨batch_size, lr, beta1, beta2, l1_coeff, dataset_repo_id,
        wandb_project, wandb_entity, log_every, save_every, dump_dir⟩

/-! ## `cache_acts.main` (src/cache_acts.py)

The orchestrator: a fixed list of checkpoint steps, one pool job per
step with a round-robin GPU index, then a merge phase that loads each
per-step dataset, renames its activation column to the step number and
concatenates column-wise.
-/

/-- The fixed checkpoint list `steps` of `main` (lines 63-71). -/
def steps : List ℕ := [256, 1000, 5000, 10000, 50000, 100000, 143000]

/-- `n_processes = len(steps)` (line 94). -/
def n_processes (stepList : List ℕ) : ℕ := stepList.length

/-- The `pool.starmap` argument list
`[(step, base_config, i % n_gpus) for i, step in enumerate(steps)]`
(line 102), with the constant `base_config` component omitted: one pair
`(step, gpu index)` per checkpoint step. -/
def jobArgs (stepList : List ℕ) (n_gpus : ℕ) : List (ℕ × ℕ) :=
  stepList.enum.map (fun p => (p.2, p.1 % n_gpus))

/-- `hook_layer = 4` (line 42). -/
def hook_layer : ℕ := 4

/-- `activation_path = f"activations/pythia-70m-layer-{hook_layer}-resid-post/"`
(line 44). -/
def activation_path : String :=
  "activations/pythia-70m-layer-" ++ toString hook_layer ++ "-resid-post/"

/-- `hook_name = f"blocks.{hook_layer}.hook_resid_post"` (line 76): the
name of the activation column each worker's output dataset carries. -/
def hook_name : String := "blocks." ++ toString hook_layer ++ ".hook_resid_post"

/-- A dataset at column granularity: named columns in table order, each
carrying opaque column data of type `α`. -/
structure DatasetModel (α : Type) where
  cols : List (String × α)
deriving DecidableEq, Repr

/-- `Dataset.rename_column`: rename every column named `old` to `nw`. -/
def rename_column {α : Type} (ds : DatasetModel α) (old nw : String) : DatasetModel α :=
  ⟨ds.cols.map (fun c => if c.1 = old then (nw, c.2) else c)⟩

/-- `concatenate_datasets(dss, axis=1)`: column-wise concatenation, in
dataset order. -/
def concatenate_datasets_axis1 {α : Type} (dss : List (DatasetModel α)) : DatasetModel α :=
  ⟨(dss.map DatasetModel.cols).flatten⟩

/-- The path `f"{activation_path}/{revision}"` with `revision = f"step{step}"`
from which the merge loop loads the per-step dataset (lines 113-114). -/
def merge_path (step : ℕ) : String :=
  activation_path ++ "/step" ++ toString step

/-- The merge loop of `main` (lines 111-116): for each step in list order,
load the per-step dataset (`load` abstracts `Dataset.load_from_disk` at
`merge_path step`) and rename its `'blocks.4.hook_resid_post'` column to
`str(step)`, collecting the results in order. -/
def mergeLoop {α : Type} (load : ℕ → DatasetModel α) : List ℕ → List (DatasetModel α)
  | [] => []
  | s :: rest =>
      rename_column (load s) "blocks.4.hook_resid_post" (toString s) :: mergeLoop load rest

/-- The merged wide table `ds = concatenate_datasets(dss, axis=1)`
(line 118) that `main` publishes. -/
def mergeResult {α : Type} (load : ℕ → DatasetModel α) (stepList : List ℕ) : DatasetModel α :=
  concatenate_datasets_axis1 (mergeLoop load stepList)

/-- An observable action of `main`'s orchestration (lines 98-119). -/
inductive MainEvent where
  | runJob (i : ℕ)
  | printSuccess
  | logError (e : String)
  | startMerge
  | publish
deriving DecidableEq, Repr

/-- The result `pool.starmap` reports: `ok` when every worker succeeded,
otherwise the first worker exception, which `starmap` re-raises in the
parent. -/
def firstError : List (Except String Unit) → Except String Unit
  | [] => .ok ()
  | .ok _ :: rest => firstError rest
  | .error e :: _ => .error e

/-- Control flow of `main` (lines 98-119) as a function of the worker
results: the `try:` block submits one job per argument-list entry to the
pool; on success it prints and `main` goes on to the merge/publish phase;
`except Exception as e:` prints the error and re-raises it (`raise`),
so the merge phase is never reached. -/
def mainFlow (results : List (Except String Unit)) : List MainEvent × Except String Unit :=
  match firstError results with
  | .ok _ =>
      ((List.range results.length).map MainEvent.runJob
         ++ [.printSuccess, .startMerge, .publish], .ok ())
  | .error e =>
      ((List.range results.length).map MainEvent.runJob ++ [.logError e], .error e)

/-! ## Division-checked variants

Python raises `ZeroDivisionError` on `x / 0.0` and `i % 0`; the checked
embeddings make that explicit.
-/

/-- A Python runtime error relevant to these scripts. -/
inductive PyError where
  | zeroDivisionError
deriving DecidableEq, Repr

/-- `Trainer.lr_lambda` with Python division semantics made explicit: the
`else` branch divides by `0.2 * self.total_steps` and raises
`ZeroDivisionError` when that divisor is zero. -/
def lr_lambda_checked (total_steps step : ℕ) : Except PyError ℚ :=
  if (step : ℚ) < 8/10 * total_steps then .ok 1
  else if (2/10 : ℚ) * total_steps = 0 then .error .zeroDivisionError
  else .ok (1 - ((step : ℚ) - 8/10 * total_steps) / (2/10 * total_steps))

/-- `Trainer.train` line 94 constructs
`t.optim.lr_scheduler.LambdaLR(self.optimizer, self.lr_lambda)`, whose
initialization immediately evaluates the multiplier at step `0` to set
the initial learning rate (torch `LRScheduler.__init__` calls
`self.step()`). -/
def scheduler_init (total_steps : ℕ) : Except PyError ℚ :=
  lr_lambda_checked total_steps 0

/-- `device = "cuda" if t.cuda.is_available() else "mps" if
t.mps.is_available() else "cpu"` (line 39). -/
def select_device (cuda_available mps_available : Bool) : String :=
  if cuda_available then "cuda" else if mps_available then "mps" else "cpu"

/-- Elementwise evaluation of the comprehension
`[(step, base_config, i % n_gpus) for i, step in enumerate(steps)]` with
Python `%` semantics: `i % 0` raises `ZeroDivisionError`. `i` is the
running `enumerate` index. -/
def jobArgsCheckedAux (n_gpus : ℕ) : ℕ → List ℕ → Except PyError (List (ℕ × ℕ))
  | _, [] => .ok []
  | i, s :: rest =>
    if n_gpus = 0 then .error .zeroDivisionError
    else
      match jobArgsCheckedAux n_gpus (i + 1) rest with
      | .ok tail => .ok ((s, i % n_gpus) :: tail)
      | .error e => .error e

/-- The checked job-argument list of `main` (line 102), built before any
pool job runs. -/
def jobArgsChecked (stepList : List ℕ) (n_gpus : ℕ) : Except PyError (List (ℕ × ℕ)) :=
  jobArgsCheckedAux n_gpus 0 stepList

/-! ## Claims C1 and C2: the two scalar schedules -/

/-- **C1.** For every run with `total_steps > 0`: for every step below
`0.8 * total_steps` the learning-rate multiplier is `1`; for every step
at or above `0.8 * total_steps` it equals
`1 - (step - 0.8 * total_steps) / (0.2 * total_steps)`; it strictly
decreases on `[0.8 * total_steps, total_steps]`; and it is exactly `0`
at `step = total_steps`. -/
theorem lr_lambda_spec (total_steps step : ℕ) (hT : 0 < total_steps) :
    ((step : ℚ) < 8/10 * total_steps → lr_lambda total_steps step = 1) ∧
    (8/10 * (total_steps : ℚ) ≤ step →
      lr_lambda total_steps step
        = 1 - ((step : ℚ) - 8/10 * total_steps) / (2/10 * total_steps)) ∧
    (∀ s1 s2 : ℕ, 8/10 * (total_steps : ℚ) ≤ s1 → s1 < s2 → (s2 : ℚ) ≤ total_steps →
      lr_lambda total_steps s2 < lr_lambda total_steps s1) ∧
    lr_lambda total_steps total_steps = 0 := by
  have hT' : (0 : ℚ) < total_steps := by exact_mod_cast hT
  have hd : (0 : ℚ) < 2/10 * total_steps := by positivity
  refine ⟨fun h => by rw [lr_lambda, if_pos h], fun h => ?_, fun s1 s2 h1 h12 h2 => ?_, ?_⟩
  · rw [lr_lambda, if_neg (not_lt.mpr h)]
  · have h1' : ¬ ((s1 : ℚ) < 8/10 * total_steps) := not_lt.mpr h1
    have h2' : ¬ ((s2 : ℚ) < 8/10 * total_steps) := by
      push_neg
      calc 8/10 * (total_steps : ℚ) ≤ s1 := h1
        _ ≤ s2 := by exact_mod_cast h12.le
    simp only [lr_lambda]
    rw [if_neg h2', if_neg h1']
    have hlt : ((s1 : ℚ) - 8/10 * total_steps) / (2/10 * total_steps)
        < ((s2 : ℚ) - 8/10 * total_steps) / (2/10 * total_steps) := by
      exact (div_lt_div_iff_of_pos_right hd).mpr (sub_lt_sub_right (by exact_mod_cast h12) _)
    linarith
  · rw [lr_lambda, if_neg (by push_neg; nlinarith)]
    field_simp
    ring

/-- Witness for C1 at `total_steps = 10`: the multiplier is `1` at step 3
and `0` at step 10. -/
theorem lr_lambda_spec_witness :
    lr_lambda 10 3 = 1 ∧ lr_lambda 10 10 = 0 := by
  have h := lr_lambda_spec 10 3 (by norm_num)
  have h2 := lr_lambda_spec 10 10 (by norm_num)
  exact ⟨h.1 (by norm_num), h2.2.2.2⟩

/-- **C2.** For every run with `total_steps > 0`: `get_l1_coeff` is `0`
when the step counter is `0`, equals
`l1_coeff * step_counter / (0.05 * total_steps)` whenever
`step_counter < 0.05 * total_steps`, and equals the configured `l1_coeff`
whenever `step_counter ≥ 0.05 * total_steps`. -/
theorem get_l1_coeff_spec (l1_coeff : ℚ) (total_steps step_counter : ℕ)
    (hT : 0 < total_steps) :
    get_l1_coeff l1_coeff total_steps 0 = 0 ∧
    ((step_counter : ℚ) < 5/100 * total_steps →
      get_l1_coeff l1_coeff total_steps step_counter
        = l1_coeff * step_counter / (5/100 * total_steps)) ∧
    (5/100 * (total_steps : ℚ) ≤ step_counter →
      get_l1_coeff l1_coeff total_steps step_counter = l1_coeff) := by
  have hT' : (0 : ℚ) < total_steps := by exact_mod_cast hT
  refine ⟨?_, fun h => by rw [get_l1_coeff, if_pos h], fun h => ?_⟩
  · rw [get_l1_coeff, if_pos (by positivity)]
    simp
  · rw [get_l1_coeff, if_neg (not_lt.mpr h)]

/-- Witness for C2 at `l1_coeff = 5`, `total_steps = 100`: the coefficient
is `0` at counter 0, `2` at counter 2 (linear ramp) and `5` from
counter 5 onwards. -/
theorem get_l1_coeff_spec_witness :
    get_l1_coeff 5 100 0 = 0 ∧ get_l1_coeff 5 100 2 = 2 ∧ get_l1_coeff 5 100 7 = 5 := by
  have h := get_l1_coeff_spec 5 100 7 (by norm_num)
  have h2 := get_l1_coeff_spec 5 100 2 (by norm_num)
  refine ⟨h.1, ?_, h.2.2 (by norm_num)⟩
  rw [h2.2.1 (by norm_num)]
  norm_num

/-! ## Claims C3 and C5: the training loop -/

theorem save_not_mem_stepEvents (i : ℕ) : TrainEvent.save ∉ stepEvents i := by
  simp [stepEvents]

theorem count_save_stepEvents (i : ℕ) : (stepEvents i).count TrainEvent.save = 0 :=
  List.count_eq_zero.mpr (save_not_mem_stepEvents i)

/-- Closed form of the loop body when no exception occurs: one per-batch
block per index, in order, and the step counter advances once per batch. -/
theorem loopRun_none_eq (save_every : ℕ) (l : List ℕ) (c : ℕ) :
    loopRun save_every none l c
      = (l.flatMap
           (fun i => stepEvents i ++ if (i + 1) % save_every = 0 then [TrainEvent.save] else []),
         c + l.length) := by
  induction l generalizing c with
  | nil => simp [loopRun]
  | cons i rest ih =>
      simp only [loopRun, ih, List.flatMap_cons, List.length_cons]
      refine Prod.ext ?_ ?_
      · simp [List.append_assoc]
      · simp
        omega

/-- When the failing index is not among the remaining batch indices, the
loop behaves as in the exception-free run. -/
theorem loopRun_some_not_mem (save_every k : ℕ) (l : List ℕ) (c : ℕ) (h : k ∉ l) :
    loopRun save_every (some k) l c = loopRun save_every none l c := by
  induction l generalizing c with
  | nil => rfl
  | cons i rest ih =>
      simp only [List.mem_cons, not_or] at h
      have hki : ¬ ((some k : Option ℕ) = some i) := fun hc => h.1 (Option.some_inj.mp hc)
      have hni : ¬ ((none : Option ℕ) = some i) := fun hc => Option.noConfusion hc
      simp only [loopRun, if_neg hki, if_neg hni, ih (c + 1) h.2]

/-- An exception at batch `k` cuts the loop short: the events are those of
the exception-free run over the preceding indices followed by the raise,
and the step counter stops at the count of completed batches. -/
theorem loopRun_some_split (save_every k : ℕ) (l1 l2 : List ℕ) (c : ℕ) (h : k ∉ l1) :
    loopRun save_every (some k) (l1 ++ k :: l2) c
      = ((loopRun save_every none l1 c).1 ++ [TrainEvent.raiseExc k],
         (loopRun save_every none l1 c).2) := by
  induction l1 generalizing c with
  | nil => simp [loopRun]
  | cons i rest ih =>
      simp only [List.mem_cons, not_or] at h
      have hki : ¬ ((some k : Option ℕ) = some i) := fun hc => h.1 (Option.some_inj.mp hc)
      have hni : ¬ ((none : Option ℕ) = some i) := fun hc => Option.noConfusion hc
      simp only [List.cons_append, loopRun, if_neg hki, if_neg hni, List.append_eq]
      rw [ih (c + 1) h.2]
      simp [List.append_assoc]

theorem count_save_loop_none (save_every : ℕ) (l : List ℕ) (c : ℕ) :
    (loopRun save_every none l c).1.count TrainEvent.save
      = l.countP (fun i => (i + 1) % save_every = 0) := by
  rw [loopRun_none_eq]
  induction l with
  | nil => simp
  | cons i rest ih =>
      by_cases h : (i + 1) % save_every = 0 <;>
        simp [List.flatMap_cons, List.count_append, List.countP_cons, h,
              count_save_stepEvents, ih]

/-- Splitting `List.range n` at an interior index `k`. -/
theorem range_split (k n : ℕ) (hk : k < n) :
    List.range n = List.range k ++ k :: List.range' (k + 1) (n - k - 1) := by
  have h1 : List.range' 0 k 1 ++ List.range' (0 + 1 * k) (n - k) 1
      = List.range' 0 (n - k + k) 1 := List.range'_append 0 k (n - k) 1
  have h2 : n - k + k = n := by omega
  have h3 : n - k = (n - k - 1) + 1 := by omega
  rw [h2] at h1
  rw [List.range_eq_range', List.range_eq_range', ← h1, h3, List.range'_succ]
  simp

/-- **C3.** In every run of `Trainer.train` with a positive `save_every`
cadence: the event trace always ends with the unconditional `finally:`
save; on a normal completion over `n` batches, `save` is invoked exactly
once per batch `i` with `(i + 1)` a multiple of `save_every`, plus exactly
once more at loop exit; and when an exception is raised during batch
`k < n`, the saves are exactly those for the completed batches
`0, …, k - 1` at the same cadence, plus the one at loop exit. -/
theorem train_save_spec (save_every n : ℕ) (failAt : Option ℕ) (hse : 0 < save_every) :
    (trainEvents save_every n failAt).getLast? = some TrainEvent.save ∧
    (failAt = none →
      (trainEvents save_every n failAt).count TrainEvent.save
        = (List.range n).countP (fun i => (i + 1) % save_every = 0) + 1) ∧
    (∀ k, failAt = some k → k < n →
      (trainEvents save_every n failAt).count TrainEvent.save
        = (List.range k).countP (fun i => (i + 1) % save_every = 0) + 1) := by
  refine ⟨List.getLast?_concat _, fun hnone => ?_, fun k hsome hk => ?_⟩
  · subst hnone
    simp [trainEvents, trainRun, List.count_append, count_save_loop_none]
  · subst hsome
    have hmem : k ∉ List.range k := by simp
    simp only [trainEvents, trainRun, range_split k n hk,
               loopRun_some_split save_every k _ _ 0 hmem]
    simp [List.count_append, count_save_loop_none]

/-- Witness for C3 at `save_every = 2`, `n = 5` batches, exception during
batch 3: saves happen after batch 1 (cadence) and at exit — two in all. -/
theorem train_save_spec_witness :
    (trainEvents 2 5 (some 3)).count TrainEvent.save = 2 := by
  have h := (train_save_spec 2 5 (some 3) (by norm_num)).2.2 3 rfl (by norm_num)
  rw [h]
  rfl

theorem count_optimizerStep_block (save_every i j : ℕ) :
    ((stepEvents j ++ if (j + 1) % save_every = 0 then [TrainEvent.save] else []).count
        (TrainEvent.optimizerStep i))
      = if j = i then 1 else 0 := by
  rw [List.count_append]
  have hsp : (if (j + 1) % save_every = 0 then [TrainEvent.save] else []).count
      (TrainEvent.optimizerStep i) = 0 := by
    split <;> simp
  rw [hsp]
  by_cases h : j = i <;> simp [stepEvents, List.count_cons, h]

theorem count_schedulerStep_block (save_every i j : ℕ) :
    ((stepEvents j ++ if (j + 1) % save_every = 0 then [TrainEvent.save] else []).count
        (TrainEvent.schedulerStep i))
      = if j = i then 1 else 0 := by
  rw [List.count_append]
  have hsp : (if (j + 1) % save_every = 0 then [TrainEvent.save] else []).count
      (TrainEvent.schedulerStep i) = 0 := by
    split <;> simp
  rw [hsp]
  by_cases h : j = i <;> simp [stepEvents, List.count_cons, h]

theorem sum_ite_eq_count (i : ℕ) (l : List ℕ) :
    (l.map (fun j => if j = i then 1 else 0)).sum = l.count i := by
  induction l with
  | nil => simp
  | cons a t ih =>
      by_cases h : a = i <;> simp [h, ih, List.count_cons] <;> omega

/-- **C5.** On a normal `Trainer.train` run over `n` batches with positive
`save_every`: the trace consists of one block per batch index
`0, …, n - 1`, in order, followed by the final save (the data loader is
iterated exactly once); each block performs, in source order, loss
computation, backward, gradient clipping with `max_norm = 1`, exactly one
optimizer step and exactly one scheduler step, then zeroes the gradients;
the weighted loss is `l2_loss + get_l1_coeff() * l1_loss`; and the final
`step_counter` equals `n = total_steps = len(dl)`. -/
theorem train_step_spec (save_every n : ℕ) (hse : 0 < save_every) :
    trainEvents save_every n none
      = (List.range n).flatMap
          (fun i => stepEvents i ++ if (i + 1) % save_every = 0 then [TrainEvent.save] else [])
        ++ [TrainEvent.save] ∧
    (∀ i, stepEvents i
      = [TrainEvent.getLosses i, TrainEvent.computeLoss i, TrainEvent.backward i,
         TrainEvent.clipGradNorm i 1, TrainEvent.optimizerStep i,
         TrainEvent.schedulerStep i, TrainEvent.zeroGrad i]) ∧
    (∀ i, i < n →
      (trainEvents save_every n none).count (TrainEvent.optimizerStep i) = 1 ∧
      (trainEvents save_every n none).count (TrainEvent.schedulerStep i) = 1) ∧
    (∀ l1c l2_loss l1_loss : ℚ, ∀ c : ℕ,
      stepLoss l1c n c l2_loss l1_loss = l2_loss + get_l1_coeff l1c n c * l1_loss) ∧
    finalStepCounter save_every n none = n := by
  have hev : trainEvents save_every n none
      = (List.range n).flatMap
          (fun i => stepEvents i ++ if (i + 1) % save_every = 0 then [TrainEvent.save] else [])
        ++ [TrainEvent.save] := by
    simp [trainEvents, trainRun, loopRun_none_eq]
  refine ⟨hev, fun i => rfl, fun i hi => ?_, fun _ _ _ _ => rfl, ?_⟩
  · have hcnt : (List.range n).count i = 1 :=
      List.count_eq_one_of_mem (List.nodup_range n) (List.mem_range.mpr hi)
    constructor
    · rw [hev, List.count_append, List.count_flatMap]
      have : (List.map
          (List.count (TrainEvent.optimizerStep i) ∘
            fun j => stepEvents j ++ if (j + 1) % save_every = 0 then [TrainEvent.save] else [])
          (List.range n)).sum
          = ((List.range n).map (fun j => if j = i then 1 else 0)).sum := by
        apply congrArg
        apply List.map_congr_left
        intro j _
        exact count_optimizerStep_block save_every i j
      rw [this, sum_ite_eq_count, hcnt]
      simp
    · rw [hev, List.count_append, List.count_flatMap]
      have : (List.map
          (List.count (TrainEvent.schedulerStep i) ∘
            fun j => stepEvents j ++ if (j + 1) % save_every = 0 then [TrainEvent.save] else [])
          (List.range n)).sum
          = ((List.range n).map (fun j => if j = i then 1 else 0)).sum := by
        apply congrArg
        apply List.map_congr_left
        intro j _
        exact count_schedulerStep_block save_every i j
      rw [this, sum_ite_eq_count, hcnt]
      simp
  · simp [finalStepCounter, trainRun, loopRun_none_eq]

/-- Witness for C5 at `save_every = 2`, `n = 3`: after the run the step
counter equals the number of batches, and batch 1 got exactly one
optimizer step. -/
theorem train_step_spec_witness :
    finalStepCounter 2 3 none = 3 ∧
    (trainEvents 2 3 none).count (TrainEvent.optimizerStep 1) = 1 := by
  have h := train_step_spec 2 3 (by norm_num)
  exact ⟨h.2.2.2.2, (h.2.2.1 1 (by norm_num)).1⟩

/-! ## Claim C4: configuration round trip -/

/-- **C4.** Serializing any `TrainerConfig` the way `Trainer.save` does
(`json.dump(asdict(self.cfg))`) and reloading the JSON object reproduces
the configuration, and in particular every hyperparameter field —
`batch_size`, `lr`, `beta1`, `beta2`, `l1_coeff`, `dataset_repo_id`,
`wandb_project`, `wandb_entity`, `log_every`, `save_every`, `dump_dir` —
unchanged. -/
theorem trainer_cfg_roundtrip (c : TrainerConfig) :
    TrainerConfig.fromJson (TrainerConfig.asdict c) = some c ∧
    (TrainerConfig.fromJson (TrainerConfig.asdict c)).map TrainerConfig.batch_size
      = some c.batch_size ∧
    (TrainerConfig.fromJson (TrainerConfig.asdict c)).map TrainerConfig.lr = some c.lr ∧
    (TrainerConfig.fromJson (TrainerConfig.asdict c)).map TrainerConfig.beta1 = some c.beta1 ∧
    (TrainerConfig.fromJson (TrainerConfig.asdict c)).map TrainerConfig.beta2 = some c.beta2 ∧
    (TrainerConfig.fromJson (TrainerConfig.asdict c)).map TrainerConfig.l1_coeff
      = some c.l1_coeff ∧
    (TrainerConfig.fromJson (TrainerConfig.asdict c)).map TrainerConfig.dataset_repo_id
      = some c.dataset_repo_id ∧
    (TrainerConfig.fromJson (TrainerConfig.asdict c)).map TrainerConfig.wandb_project
      = some c.wandb_project ∧
    (TrainerConfig.fromJson (TrainerConfig.asdict c)).map TrainerConfig.wandb_entity
      = some c.wandb_entity ∧
    (TrainerConfig.fromJson (TrainerConfig.asdict c)).map TrainerConfig.log_every
      = some c.log_every ∧
    (TrainerConfig.fromJson (TrainerConfig.asdict c)).map TrainerConfig.save_every
      = some c.save_every ∧
    (TrainerConfig.fromJson (TrainerConfig.asdict c)).map TrainerConfig.dump_dir
      = some c.dump_dir :=
  ⟨rfl, rfl, rfl, rfl, rfl, rfl, rfl, rfl, rfl, rfl, rfl, rfl⟩

/-! ## Claim C6: round-robin job assignment -/

/-- **C6.** With at least one CUDA device: the pool argument list has
exactly one job per checkpoint step (pool size `n_processes = len(steps)`),
the jobs carry the steps in list order, and the job for the `i`-th step is
assigned GPU index `i % n_gpus`. The assignment is a pure function of the
list position, independent of job completion order. -/
theorem cache_assignment_spec (stepList : List ℕ) (n_gpus : ℕ) (h : 0 < n_gpus) :
    n_processes stepList = stepList.length ∧
    (jobArgs stepList n_gpus).length = stepList.length ∧
    (jobArgs stepList n_gpus).map Prod.fst = stepList ∧
    (∀ i : ℕ, (jobArgs stepList n_gpus)[i]? = stepList[i]?.map (fun s => (s, i % n_gpus))) := by
  refine ⟨rfl, by simp [jobArgs], ?_, fun i => ?_⟩
  · rw [jobArgs, List.map_map]
    have hc : (Prod.fst ∘ fun p : ℕ × ℕ => (p.2, p.1 % n_gpus)) = Prod.snd := rfl
    rw [hc, List.enum_map_snd]
  · rw [jobArgs, List.getElem?_map]
    have he : (stepList.enum)[i]? = stepList[i]?.map (fun a => (i, a)) := by
      simpa [List.enum] using List.getElem?_enumFrom 0 stepList i
    rw [he]
    cases stepList[i]? <;> simp

/-- Witness for C6 on the script's own step list with 2 GPUs: the jobs
carry the steps in order and job 3 runs on GPU `3 % 2 = 1`. -/
theorem cache_assignment_spec_witness :
    (jobArgs steps 2).map Prod.fst = steps ∧
    (jobArgs steps 2)[3]? = steps[3]?.map (fun s => (s, 3 % 2)) := by
  have h := cache_assignment_spec steps 2 (by norm_num)
  exact ⟨h.2.2.1, h.2.2.2 3⟩

/-! ## Claim C7: the merge phase -/

theorem map_fst_eq_singleton {α : Type} {l : List (String × α)} {nm : String}
    (h : l.map Prod.fst = [nm]) : ∃ d, l = [(nm, d)] := by
  cases l with
  | nil => simp at h
  | cons p t =>
      cases t with
      | nil =>
          simp at h
          exact ⟨p.2, by simp [← h]⟩
      | cons q t2 => simp at h

/-- The columns of the merged table: one column per step, named by the
step's decimal string, in list order — provided every per-step dataset
carries the single activation column the worker writes. -/
theorem mergeResult_cols {α : Type} (load : ℕ → DatasetModel α) :
    ∀ stepList : List ℕ,
      (∀ s ∈ stepList, (load s).cols.map Prod.fst = [hook_name]) →
      (mergeResult load stepList).cols.map Prod.fst
        = stepList.map (fun s => toString s) := by
  intro stepList
  induction stepList with
  | nil => intro _; rfl
  | cons s rest ih =>
      intro hone
      obtain ⟨d, hd⟩ := map_fst_eq_singleton (hone s (List.mem_cons_self _ _))
      have hrest := ih (fun x hx => hone x (List.mem_cons_of_mem _ hx))
      have hhn : hook_name = "blocks.4.hook_resid_post" := rfl
      simp only [mergeResult, concatenate_datasets_axis1, mergeLoop, List.map_cons,
                 List.flatten_cons, List.map_append] at *
      simp only [rename_column]
      rw [hd]
      simp [← hhn, hrest]

/-- **C7.** Whenever every per-step output dataset (as loaded from
`merge_path step = activation_path/step{step}`) carries exactly the one
activation column named `blocks.4.hook_resid_post`, the merge phase
produces a single table whose columns are, in list order, one activation
column per checkpoint step, named by the step's decimal string; when the
step strings are distinct, each step owns exactly one column. -/
theorem merge_spec {α : Type} (load : ℕ → DatasetModel α) (stepList : List ℕ)
    (hone : ∀ s ∈ stepList, (load s).cols.map Prod.fst = [hook_name]) :
    (mergeResult load stepList).cols.map Prod.fst
      = stepList.map (fun s => toString s) ∧
    ((stepList.map (fun s => toString s)).Nodup →
      ∀ s ∈ stepList,
        ((mergeResult load stepList).cols.map Prod.fst).count (toString s) = 1) ∧
    (∀ s : ℕ, merge_path s = activation_path ++ "/step" ++ toString s) := by
  refine ⟨mergeResult_cols load stepList hone, fun hnd s hs => ?_, fun s => rfl⟩
  rw [mergeResult_cols load stepList hone]
  exact List.count_eq_one_of_mem hnd (List.mem_map_of_mem _ hs)

/-- Witness for C7 on the script's own step list, with every per-step
dataset holding one `blocks.4.hook_resid_post` column: the merged table
has the seven step-named columns in order, and step 256 owns exactly
one column. -/
theorem merge_spec_witness :
    (mergeResult (fun _ => DatasetModel.mk [(hook_name, (0 : ℕ))]) steps).cols.map Prod.fst
      = steps.map (fun s => toString s) ∧
    ((mergeResult (fun _ => DatasetModel.mk [(hook_name, (0 : ℕ))]) steps).cols.map
        Prod.fst).count (toString 256) = 1 := by
  have h := merge_spec (fun _ => DatasetModel.mk [(hook_name, (0 : ℕ))]) steps
    (fun s _ => rfl)
  exact ⟨h.1, h.2.1 (by decide) 256 (by decide)⟩

/-! ## Claim C8: worker failure aborts the batch -/

theorem firstError_of_mem {rs : List (Except String Unit)} {e : String}
    (h : Except.error e ∈ rs) : ∃ e2, firstError rs = Except.error e2 := by
  induction rs with
  | nil => cases h
  | cons r rest ih =>
      cases r with
      | ok u =>
          rcases List.mem_cons.mp h with h1 | h2
          · exact absurd h1 (by simp)
          · simpa [firstError] using ih h2
      | error e2 => exact ⟨e2, rfl⟩

/-- **C8.** If any worker raises, `main` logs the (first) worker exception
and re-raises it: the run ends in that error, the merge phase and the
publish step are never reached, and no job is submitted more than once
(no retry). -/
theorem worker_failure_spec (results : List (Except String Unit))
    (h : ∃ e, Except.error e ∈ results) :
    (∃ e2, (mainFlow results).2 = Except.error e2 ∧
       MainEvent.logError e2 ∈ (mainFlow results).1) ∧
    MainEvent.startMerge ∉ (mainFlow results).1 ∧
    MainEvent.publish ∉ (mainFlow results).1 ∧
    (∀ i, (mainFlow results).1.count (MainEvent.runJob i) ≤ 1) := by
  obtain ⟨e, he⟩ := h
  obtain ⟨e2, he2⟩ := firstError_of_mem he
  have hflow : mainFlow results
      = ((List.range results.length).map MainEvent.runJob ++ [MainEvent.logError e2],
         Except.error e2) := by
    unfold mainFlow
    rw [he2]
  refine ⟨⟨e2, by rw [hflow], by rw [hflow]; simp⟩, by rw [hflow]; simp,
          by rw [hflow]; simp, fun i => ?_⟩
  rw [hflow]
  simp only [List.count_append]
  have h1 : ((List.range results.length).map MainEvent.runJob).count (MainEvent.runJob i)
      = (List.range results.length).count i :=
    List.count_map_of_injective _ _ (fun a b hab => by simpa using hab) i
  have h2 : ([MainEvent.logError e2].count (MainEvent.runJob i)) = 0 := by simp
  rw [h1, h2]
  have h3 := List.nodup_iff_count_le_one.mp (List.nodup_range results.length) i
  omega

/-- Witness for C8 with workers `[ok, error "boom"]`: the merge phase is
not reached and the run re-raises the worker error. -/
theorem worker_failure_spec_witness :
    MainEvent.startMerge ∉ (mainFlow [Except.ok (), Except.error "boom"]).1 ∧
    (mainFlow [Except.ok (), Except.error "boom"]).2 = Except.error "boom" := by
  have h := worker_failure_spec [Except.ok (), Except.error "boom"] ⟨"boom", by simp⟩
  exact ⟨h.2.1, rfl⟩

/-! ## Claim C9: empty data loader divides by zero -/

/-- **C9.** When the data loader is empty (`total_steps = len(dl) = 0`),
every evaluation of `lr_lambda` takes the `else` branch and divides by
`0.2 * total_steps = 0`, raising `ZeroDivisionError` instead of returning
a multiplier — in particular the evaluation at step `0` performed when
`LambdaLR` is constructed in `Trainer.train`. -/
theorem lr_lambda_empty_loader (step : ℕ) :
    lr_lambda_checked 0 step = Except.error PyError.zeroDivisionError ∧
    scheduler_init 0 = Except.error PyError.zeroDivisionError := by
  have key : ∀ s : ℕ, lr_lambda_checked 0 s = Except.error PyError.zeroDivisionError := by
    intro s
    have hnot : ¬ ((s : ℚ) < 8/10 * ((0 : ℕ) : ℚ)) := by
      push_neg
      have hz : (8 : ℚ)/10 * ((0 : ℕ) : ℚ) = 0 := by norm_num
      rw [hz]
      positivity
    rw [lr_lambda_checked, if_neg hnot, if_pos (by norm_num)]
  exact ⟨key step, key 0⟩

/-! ## Claim C10: zero GPUs break the round-robin index -/

/-- **C10.** `n_gpus = t.cuda.device_count()` is used unconditionally in
`i % n_gpus`, so with no CUDA device (`n_gpus = 0`) — exactly the
situations in which line 39 selects the `mps` or `cpu` device — building
the job-argument list raises `ZeroDivisionError`, for the script's step
list as for any non-empty one, before any worker job runs. -/
theorem gpu_roundrobin_zero_gpus :
    jobArgsChecked steps 0 = Except.error PyError.zeroDivisionError ∧
    select_device false true = "mps" ∧
    select_device false false = "cpu" ∧
    (∀ stepList : List ℕ, stepList ≠ [] →
      jobArgsChecked stepList 0 = Except.error PyError.zeroDivisionError) := by
  have key : ∀ stepList : List ℕ, stepList ≠ [] →
      jobArgsChecked stepList 0 = Except.error PyError.zeroDivisionError := by
    intro stepList hne
    cases stepList with
    | nil => exact absurd rfl hne
    | cons s rest => rfl
  exact ⟨key steps (by simp [steps]), rfl, rfl, key⟩

/-- Witness for C10 on a one-step list. -/
theorem gpu_roundrobin_zero_gpus_witness :
    jobArgsChecked [256] 0 = Except.error PyError.zeroDivisionError :=
  gpu_roundrobin_zero_gpus.2.2.2 [256] (by simp)

end InterpTraining
